import Mathlib

/-!
Shallow embedding of `src/app.py` (Test_Permiso), an exam-practice tool:
CSV bank loader (`load_questions`), stratified exam generator
(`generate_exam`), Streamlit session-state handlers (generate / reset /
render / previous / next / finish) and the grading computation.

Modelling conventions:
* A pandas `DataFrame` read with `dtype=str` is a `RawTable`: a list of
  column names plus rows of optional strings (`none` models a NaN cell).
  `fillna("")` becomes `Option.getD ""`.
* The bank handed to `generate_exam` is a list of rows tagged with their
  pandas row index (`List (Nat × Row)`); the index is the row identity that
  `df.sample` preserves, used to state "no two exam entries come from the
  same source row".
* Randomness is passed in explicitly: `picks t` is the list of positions
  (into topic `t`'s pool) that `pool.sample(n=n, replace=False, ...)`
  returns, and `perm` is the index permutation `random.shuffle` applies.
  Hypotheses state exactly what pandas/`random` guarantee: `picks t` is a
  duplicate-free list of `n` in-range positions, `perm` is a permutation of
  `List.range 20`.
* `st.session_state` is the `SessionState` structure; each button handler
  is a function on it.  Python dict read `answers.get(i)` is `dictGet`,
  write `answers[i] = v` is `dictSet`.
-/

namespace TestPermiso

/-- Constant `PASS_SCORE = 16` (app.py line 6). -/
def PASS_SCORE : Nat := 16

/-- Constant `EXAM_SIZE = 20` (app.py line 7). -/
def EXAM_SIZE : Nat := 20

/-- Table `TOPIC_DISTRIBUTION = {1: 3, 2: 3, 3: 2, 4: 3, 5: 3, 6: 3, 7: 3}`
(app.py line 10), as the ordered key/value list a Python dict iterates. -/
def TOPIC_DISTRIBUTION : List (Nat × Nat) :=
  [(1, 3), (2, 3), (3, 2), (4, 3), (5, 3), (6, 3), (7, 3)]

/-- Python `str.strip()` on the characters: drop leading and trailing
whitespace. -/
def stripChars (l : List Char) : List Char :=
  ((l.dropWhile Char.isWhitespace).reverse.dropWhile Char.isWhitespace).reverse

/-- Python `str.strip()`. -/
def strip (s : String) : String := ⟨stripChars s.data⟩

/-- Python `str.upper()`: uppercase each character. -/
def upper (s : String) : String := ⟨s.data.map Char.toUpper⟩

/-- One validated bank row: the six required CSV columns of one record, as
`load_questions` returns them. -/
structure Row where
  tema : String
  enunciado : String
  A : String
  B : String
  C : String
  correcta : String
deriving DecidableEq, Repr

/-- A CSV file as `pd.read_csv(path, sep=";", dtype=str)` parses it: column
names and rows of cells, a `none` cell standing for NaN (missing value). -/
structure RawTable where
  cols : List String
  rows : List (List (Option String))

/-- Effect of `df.fillna("")` on one row. -/
def fillnaRow (row : List (Option String)) : List String :=
  row.map (fun c => c.getD "")

/-- Reading cell `c` of a (filled) row: position of column `c` in the
header, then that cell.  Only used after the required-columns check, where
the column exists. -/
def getCell (cols : List String) (row : List String) (c : String) : String :=
  match cols.findIdx? (fun x => x == c) with
  | some i => row.getD i ""
  | none => ""

/-- Raw (pre-`fillna`) cell of column `c`, `none` when the column is absent:
`some none` means the column exists but the cell is NaN. -/
def rawCell (cols : List String) (row : List (Option String)) (c : String) :
    Option (Option String) :=
  match cols.findIdx? (fun x => x == c) with
  | some i => row.get? i
  | none => none

/-- List `required = ["tema", "enunciado", "A", "B", "C", "correcta"]` (line 20). -/
def requiredCols : List String := ["tema", "enunciado", "A", "B", "C", "correcta"]

/-- The per-row field transforms of lines 25-26: `tema` is stripped,
`correcta` stripped and uppercased; `enunciado`, `A`, `B`, `C` are taken
verbatim. -/
def mkRow (cols : List String) (row : List String) : Row :=
  { tema := strip (getCell cols row "tema")
  , enunciado := getCell cols row "enunciado"
  , A := getCell cols row "A"
  , B := getCell cols row "B"
  , C := getCell cols row "C"
  , correcta := upper (strip (getCell cols row "correcta")) }

/-- Set `{str(i) for i in range(1, 8)}` (line 29). -/
def validTopics : List String := ["1", "2", "3", "4", "5", "6", "7"]

/-- Set `{"A", "B", "C"}` (line 32). -/
def validKeys : List String := ["A", "B", "C"]

/-- Message of line 23. -/
def missingColsMsg (missing : List String) : String :=
  s!"Faltan columnas: {missing}. Debe haber: {requiredCols}"

/-- Message of line 30. -/
def invalidTopicMsg : String := "Hay temas inválidos. Deben ser 1..7."

/-- Message of line 33. -/
def invalidKeyMsg : String := "La columna \x27correcta\x27 debe ser A/B/C (sin espacios)."

/-- Message of line 41. -/
def emptyFieldsMsg : String := "Hay filas con enunciado u opciones vacías. Revisa tu Excel/CSV."

/-- Computation `missing = [c for c in required if c not in df.columns]` (line 21). -/
def missingOf (t : RawTable) : List String :=
  requiredCols.filter (fun c => ¬ t.cols.contains c)

/-- The dataframe after `fillna("")` and the normalisations of lines 25-26:
every parsed row, in order, through the field transforms. -/
def dfOf (t : RawTable) : List Row :=
  (t.rows.map fillnaRow).map (mkRow t.cols)

/-- Function `load_questions` (app.py lines 15-43), from the parsed table on: check
the required columns, normalise `tema`/`correcta`, validate topics, correct
keys and non-emptiness, and return the whole table or fail.  (The
file-existence check of lines 16-17 is I/O outside the embedding.) -/
def load_questions (t : RawTable) : Except String (List Row) :=
  if missingOf t ≠ [] then
    .error (missingColsMsg (missingOf t))
  else
    let df := dfOf t
    if ¬ df.all (fun r => validTopics.contains r.tema) then
      .error invalidTopicMsg
    else if ¬ df.all (fun r => validKeys.contains r.correcta) then
      .error invalidKeyMsg
    else if df.any (fun r =>
        strip r.enunciado == "" || strip r.A == "" || strip r.B == "" || strip r.C == "") then
      .error emptyFieldsMsg
    else
      .ok df

/-- One exam entry as built on lines 54-59: `tema` decoded with `int(...)`
(total here: a validated bank only holds `"1"`..`"7"`), the statement, the
three options under their original labels, and the correct key. -/
structure Question where
  tema : Nat
  enunciado : String
  optA : String
  optB : String
  optC : String
  correcta : String
deriving DecidableEq, Repr

/-- Python `int(r["tema"])` on the digit strings a validated bank contains, as a
fold over the decimal digits. -/
def decodeTopic (s : String) : Nat :=
  s.data.foldl (fun acc c => acc * 10 + (c.toNat - 48)) 0

def mkQuestion (r : Row) : Question :=
  { tema := decodeTopic r.tema
  , enunciado := r.enunciado
  , optA := r.A
  , optB := r.B
  , optC := r.C
  , correcta := r.correcta }

/-- Filter `df[df["tema"] == str(topic)]` (line 49): the topic's pool, row indices
preserved. -/
def pool (df : List (Nat × Row)) (topic : Nat) : List (Nat × Row) :=
  df.filter (fun ir => ir.2.tema == toString topic)

/-- Selecting the entries of `l` at `picks` positions, in that order: the
common shape of `pool.sample` (with the sample's positions) and
`random.shuffle` (with a permutation of all positions). -/
def select (l : List α) (picks : List Nat) : List α :=
  picks.filterMap l.get?

/-- Message of line 51. -/
def shortfallMsg (topic n avail : Nat) : String :=
  s!"En el tema {topic} necesitas {n} preguntas y solo tienes {avail}."

/-- The `for topic, n in TOPIC_DISTRIBUTION.items()` loop of lines 48-59:
per topic, take the pool, fail on a shortfall, otherwise append the sampled
rows (as exam entries keeping their source-row index). -/
def genLoop (df : List (Nat × Row)) (picks : Nat → List Nat) :
    List (Nat × Nat) → List (Nat × Question) → Except String (List (Nat × Question))
  | [], acc => .ok acc
  | (topic, n) :: rest, acc =>
    let p := pool df topic
    if p.length < n then
      .error (shortfallMsg topic n p.length)
    else
      genLoop df picks rest
        (acc ++ (select p (picks topic)).map (fun ir => (ir.1, mkQuestion ir.2)))

/-- Function `generate_exam` (app.py lines 46-61): the topic loop, then
`random.shuffle` as the positional permutation `perm`. -/
def generate_exam (df : List (Nat × Row)) (picks : Nat → List Nat)
    (perm : List Nat) : Except String (List (Nat × Question)) :=
  (genLoop df picks TOPIC_DISTRIBUTION []).map (fun exam => select exam perm)

/-- State `st.session_state`: `exam` (`None` before the first generation), cursor
`idx`, and the `answers` dict keyed by question position. -/
structure SessionState where
  exam : Option (List (Nat × Question))
  idx : Nat
  answers : List (Nat × String)
deriving DecidableEq

/-- Python `answers.get(i)`. -/
def dictGet (m : List (Nat × String)) (k : Nat) : Option String :=
  (m.find? (fun e => e.1 == k)).map (fun e => e.2)

/-- Python `answers[k] = v`: update in place when the key exists, else
append. -/
def dictSet (m : List (Nat × String)) (k : Nat) (v : String) : List (Nat × String) :=
  if m.any (fun e => e.1 == k) then
    m.map (fun e => if e.1 == k then (k, v) else e)
  else
    m ++ [(k, v)]

/-- Function `ensure_state` (lines 64-70) on a fresh session. -/
def ensure_state : SessionState := ⟨none, 0, []⟩

/-- Function `reset` (lines 73-76). -/
def reset (_s : SessionState) : SessionState := ⟨none, 0, []⟩

/-- The "🎲 Generar examen" handler (lines 95-102): on success install the
new exam, cursor 0, empty answers; on `ValueError` only show the message,
leaving the session untouched. -/
def generateButton (df : List (Nat × Row)) (picks : Nat → List Nat)
    (perm : List Nat) (s : SessionState) : SessionState :=
  match generate_exam df picks perm with
  | .ok e => ⟨some e, 0, []⟩
  | .error _ => s

/-- The question-rendering step (lines 113-127) with no user interaction:
the radio widget pre-selects the recorded answer when there is one (line
124), option `"A"` (index 0) otherwise, and line 127 writes that selection
back into `answers[idx]`.  A session without an exam stops at line 111. -/
def renderStep (s : SessionState) : SessionState :=
  match s.exam with
  | none => s
  | some _ =>
    let current := dictGet s.answers s.idx
    let choice :=
      match current with
      | some c => if validKeys.contains c then c else "A"
      | none => "A"
    { s with answers := dictSet s.answers s.idx choice }

/-- The user picking key `k` in the radio widget: line 127 records it. -/
def selectAnswer (s : SessionState) (k : String) : SessionState :=
  { s with answers := dictSet s.answers s.idx k }

/-- The "⬅️ Anterior" handler (lines 131-134): disabled at `idx == 0`,
otherwise `idx -= 1`. -/
def prevButton (s : SessionState) : SessionState :=
  if s.idx == 0 then s else { s with idx := s.idx - 1 }

/-- The "Siguiente ➡️" handler (lines 136-139): disabled at
`idx == EXAM_SIZE - 1`, otherwise `idx += 1`. -/
def nextButton (s : SessionState) : SessionState :=
  if s.idx == EXAM_SIZE - 1 then s else { s with idx := s.idx + 1 }

/-- The grading loop of lines 144-150, walking the exam from position `i`:
`answers.get(i) == qq["correcta"]` (a `None` answer never equals a string)
counts into `correct`, anything else into `wrong`. -/
def tallyFrom (answers : List (Nat × String)) : Nat → List (Nat × Question) → Nat × Nat
  | _, [] => (0, 0)
  | i, q :: rest =>
    let t := tallyFrom answers (i + 1) rest
    if dictGet answers i == some q.2.correcta then (t.1 + 1, t.2) else (t.1, t.2 + 1)

/-- The review loop of lines 162-171: every position whose recorded answer
differs from the correct key, in exam order, with what was answered. -/
def missedFrom (answers : List (Nat × String)) :
    Nat → List (Nat × Question) → List (Nat × Question × Option String)
  | _, [] => []
  | i, q :: rest =>
    if dictGet answers i == some q.2.correcta then
      missedFrom answers (i + 1) rest
    else
      (i, q.2, dictGet answers i) :: missedFrom answers (i + 1) rest

/-- What the "✅ Finalizar y corregir" block displays: the two counters, the
`correct >= PASS_SCORE` verdict (line 156) and the missed-question review. -/
structure GradingResult where
  correct : Nat
  wrong : Nat
  passed : Bool
  missed : List (Nat × Question × Option String)
deriving DecidableEq, Repr

/-- The grading computation of the Finish block (lines 142-171), as a pure
function of the exam and the answers. -/
def grade (exam : List (Nat × Question)) (answers : List (Nat × String)) :
    GradingResult :=
  let t := tallyFrom answers 0 exam
  { correct := t.1
  , wrong := t.2
  , passed := decide (PASS_SCORE ≤ t.1)
  , missed := missedFrom answers 0 exam }

/-- The "✅ Finalizar y corregir" handler (lines 141-171): it only reads the
session (the block performs no `st.session_state` write), producing the
grading view; reachable only with an exam present (line 111 stops earlier). -/
def finishButton (s : SessionState) : SessionState × Option GradingResult :=
  match s.exam with
  | none => (s, none)
  | some e => (s, some (grade e s.answers))

/-- The per-topic slice of the accumulated exam: the sampled pool rows of
one `TOPIC_DISTRIBUTION` entry, tagged with their source-row index. -/
def block (df : List (Nat × Row)) (picks : Nat → List Nat) (tn : Nat × Nat) :
    List (Nat × Question) :=
  (select (pool df tn.1) (picks tn.1)).map (fun ir => (ir.1, mkQuestion ir.2))

/-- The exam `genLoop` accumulates when no topic is short: the topic blocks
in distribution order. -/
def flatSel (df : List (Nat × Row)) (picks : Nat → List Nat) :
    List (Nat × Nat) → List (Nat × Question)
  | [] => []
  | tn :: rest => block df picks tn ++ flatSel df picks rest

/-! ### Concrete data used by the witnesses -/

/-- A bank row of topic `t` used in witnesses. -/
def rowW (t : Nat) : Row := ⟨toString t, "e", "a", "b", "c", "A"⟩

/-- A bank holding exactly the quota of each topic, with its row indices. -/
def bankW : List (Nat × Row) :=
  (TOPIC_DISTRIBUTION.flatMap (fun tn => List.replicate tn.2 (rowW tn.1))).enum

/-- Sample positions: the first `quota t` rows of each topic pool. -/
def picksW : Nat → List Nat := fun t => List.range (if t == 3 then 2 else 3)

/-- A 20-question exam used in witnesses. -/
def examW : List (Nat × Question) :=
  (List.range EXAM_SIZE).map (fun i => (i, mkQuestion (rowW 1)))

/-- An in-progress session at question 0 with no recorded answers. -/
def sW : SessionState := ⟨some examW, 0, []⟩

/-- The bank row of `tableW` as `load_questions` returns it. -/
def rowX : Row := ⟨"1", " x ", "a", "b", "c", "A"⟩

/-- A one-row table whose statement carries surrounding whitespace and
whose `correcta` cell is `" a "`. -/
def tableW : RawTable :=
  ⟨requiredCols, [[some "1", some " x ", some "a", some "b", some "c", some " a "]]⟩

/-- A one-row table with the out-of-range topic value `"9"`. -/
def table9 : RawTable :=
  ⟨requiredCols, [[some "9", some "e", some "a", some "b", some "c", some "A"]]⟩

/-- A one-row table whose `enunciado` cell is missing (NaN). -/
def table10 : RawTable :=
  ⟨requiredCols, [[some "1", none, some "a", some "b", some "c", some "A"]]⟩

/-! ### Generic facts about `select` -/

lemma select_nil (picks : List Nat) : select ([] : List α) picks = [] := by
  simp [select, List.filterMap_eq_nil]

lemma select_length {l : List α} {picks : List Nat}
    (h : ∀ i ∈ picks, i < l.length) : (select l picks).length = picks.length := by
  induction picks with
  | nil => rfl
  | cons i rest ih =>
    have hi : i < l.length := h i (by simp)
    have ha : l.get? i = some l[i] := by
      simp [List.getElem?_eq_getElem hi]
    have := ih (fun j hj => h j (by simp [hj]))
    rw [select, List.filterMap_cons, ha]
    simpa [select] using this

lemma select_mem {l : List α} {picks : List Nat} {x : α}
    (h : x ∈ select l picks) : x ∈ l := by
  rcases List.mem_filterMap.mp h with ⟨i, _, hget⟩
  exact List.get?_mem hget

lemma select_nodup {l : List α} {picks : List Nat} (hl : l.Nodup)
    (hn : picks.Nodup) (hb : ∀ i ∈ picks, i < l.length) :
    (select l picks).Nodup := by
  induction picks with
  | nil => exact List.nodup_nil
  | cons i rest ih =>
    have hi : i < l.length := hb i (by simp)
    have ha : l.get? i = some l[i] := by
      simp [List.getElem?_eq_getElem hi]
    have hrest : (select l rest).Nodup :=
      ih (List.Nodup.of_cons hn) (fun j hj => hb j (by simp [hj]))
    have hnotmem : l[i] ∉ select l rest := by
      intro hmem
      rcases List.mem_filterMap.mp hmem with ⟨j, hj, hgetj⟩
      have : i = j := List.get?_inj hi hl (ha.trans hgetj.symm)
      exact (List.nodup_cons.mp hn).1 (this ▸ hj)
    rw [select, List.filterMap_cons, ha]
    exact List.nodup_cons.mpr ⟨hnotmem, hrest⟩

lemma select_map (f : α → β) (l : List α) (picks : List Nat) :
    select (l.map f) picks = (select l picks).map f := by
  have hget : (l.map f).get? = fun i => Option.map f (l.get? i) :=
    funext (fun i => List.get?_map f l i)
  simp [select, List.map_filterMap, hget]

lemma filterMap_get?_range (l : List α) :
    (List.range l.length).filterMap l.get? = l := by
  induction l with
  | nil => rfl
  | cons a tl ih =>
    have hsucc : (a :: tl).get? ∘ Nat.succ = tl.get? := funext (fun i => rfl)
    rw [List.length_cons, List.range_succ_eq_map, List.filterMap_cons]
    simp only [List.get?, List.filterMap_map, hsucc, ih]

lemma select_perm {l : List α} {perm : List Nat}
    (h : perm.Perm (List.range l.length)) : (select l perm).Perm l := by
  have := List.Perm.filterMap l.get? h
  rwa [filterMap_get?_range] at this

/-! ### The generator loop -/

lemma genLoop_ok (df : List (Nat × Row)) (picks : Nat → List Nat) :
    ∀ (todo : List (Nat × Nat)) (acc : List (Nat × Question)),
      (∀ tn ∈ todo, ¬ (pool df tn.1).length < tn.2) →
      genLoop df picks todo acc = .ok (acc ++ flatSel df picks todo)
  | [], acc, _ => by simp [genLoop, flatSel]
  | (t, n) :: rest, acc, h => by
    have hshort : ¬ (pool df t).length < n := h (t, n) (by simp)
    have := genLoop_ok df picks rest
      (acc ++ (select (pool df t) (picks t)).map (fun ir => (ir.1, mkQuestion ir.2)))
      (fun tn htn => h tn (by simp [htn]))
    simp only [genLoop, flatSel, hshort, if_false, this, block]
    simp [List.append_assoc]

lemma genLoop_error (df : List (Nat × Row)) (picks : Nat → List Nat) :
    ∀ (todo : List (Nat × Nat)) (acc : List (Nat × Question)) (msg : String),
      genLoop df picks todo acc = .error msg →
      ∃ tn ∈ todo, (pool df tn.1).length < tn.2 ∧
        msg = shortfallMsg tn.1 tn.2 (pool df tn.1).length
  | [], _, msg, h => by simp [genLoop] at h
  | (t, n) :: rest, acc, msg, h => by
    by_cases hshort : (pool df t).length < n
    · refine ⟨(t, n), by simp, hshort, ?_⟩
      simp only [genLoop, hshort, if_true] at h
      exact (Except.error.inj h).symm
    · simp only [genLoop, hshort, if_false] at h
      rcases genLoop_error df picks rest _ msg h with ⟨tn, htn, hlt, hmsg⟩
      exact ⟨tn, by simp [htn], hlt, hmsg⟩

lemma genLoop_error_of_short (df : List (Nat × Row)) (picks : Nat → List Nat) :
    ∀ (todo : List (Nat × Nat)) (acc : List (Nat × Question)),
      (∃ tn ∈ todo, (pool df tn.1).length < tn.2) →
      ∃ msg, genLoop df picks todo acc = .error msg
  | [], _, h => by simp at h
  | (t, n) :: rest, acc, h => by
    by_cases hshort : (pool df t).length < n
    · exact ⟨shortfallMsg t n (pool df t).length, by simp [genLoop, hshort]⟩
    · rcases h with ⟨tn, htn, hlt⟩
      rcases List.mem_cons.mp htn with heq | hmem
      · subst heq; exact absurd hlt hshort
      · rcases genLoop_error_of_short df picks rest
          (acc ++ (select (pool df t) (picks t)).map (fun ir => (ir.1, mkQuestion ir.2)))
          ⟨tn, hmem, hlt⟩ with ⟨msg, hmsg⟩
        exact ⟨msg, by simp [genLoop, hshort, hmsg]⟩

/-! ### Pools, blocks and the accumulated exam -/

lemma mem_pool {df : List (Nat × Row)} {t : Nat} {ir : Nat × Row}
    (h : ir ∈ pool df t) : ir ∈ df ∧ ir.2.tema = toString t := by
  rcases List.mem_filter.mp h with ⟨hmem, hbeq⟩
  exact ⟨hmem, by simpa using hbeq⟩

lemma pool_sublist (df : List (Nat × Row)) (t : Nat) : (pool df t).Sublist df :=
  List.filter_sublist df

lemma pool_fst_nodup {df : List (Nat × Row)} (h : (df.map Prod.fst).Nodup)
    (t : Nat) : ((pool df t).map Prod.fst).Nodup :=
  ((pool_sublist df t).map Prod.fst).nodup h

lemma keys_nodup_unique {α : Type _} {l : List (Nat × α)}
    (h : (l.map Prod.fst).Nodup) {i : Nat} {a b : α}
    (ha : (i, a) ∈ l) (hb : (i, b) ∈ l) : a = b := by
  induction l with
  | nil => exact absurd ha (List.not_mem_nil _)
  | cons x rest ih =>
    rw [List.map_cons] at h
    have h1 : x.1 ∉ rest.map Prod.fst := (List.nodup_cons.mp h).1
    have h2 : (rest.map Prod.fst).Nodup := (List.nodup_cons.mp h).2
    rcases List.mem_cons.mp ha with haeq | hamem <;>
      rcases List.mem_cons.mp hb with hbeq | hbmem
    · rw [← haeq] at hbeq
      injection hbeq with _ hba
      exact hba.symm
    · exfalso
      rw [← haeq] at h1
      exact h1 (List.mem_map.mpr ⟨(i, b), hbmem, rfl⟩)
    · exfalso
      rw [← hbeq] at h1
      exact h1 (List.mem_map.mpr ⟨(i, a), hamem, rfl⟩)
    · exact ih h2 hamem hbmem

lemma block_fst (df : List (Nat × Row)) (picks : Nat → List Nat) (tn : Nat × Nat) :
    (block df picks tn).map Prod.fst =
      select ((pool df tn.1).map Prod.fst) (picks tn.1) := by
  rw [select_map, block, List.map_map]
  rfl

lemma block_fst_nodup {df : List (Nat × Row)} {picks : Nat → List Nat}
    {tn : Nat × Nat} (h : (df.map Prod.fst).Nodup) (hn : (picks tn.1).Nodup)
    (hb : ∀ i ∈ picks tn.1, i < (pool df tn.1).length) :
    ((block df picks tn).map Prod.fst).Nodup := by
  rw [block_fst]
  exact select_nodup (pool_fst_nodup h tn.1) hn (by simpa using hb)

lemma block_src {df : List (Nat × Row)} {picks : Nat → List Nat}
    {tn : Nat × Nat} {q : Nat × Question} (h : q ∈ block df picks tn) :
    ∃ r, (q.1, r) ∈ pool df tn.1 ∧ q.2 = mkQuestion r := by
  rcases List.mem_map.mp h with ⟨ir, hir, rfl⟩
  exact ⟨ir.2, by simpa using select_mem hir, rfl⟩

lemma block_tema {df : List (Nat × Row)} {picks : Nat → List Nat}
    {tn : Nat × Nat} (hdec : decodeTopic (toString tn.1) = tn.1) :
    ∀ q ∈ block df picks tn, q.2.tema = tn.1 := by
  intro q hq
  rcases block_src hq with ⟨r, hr, hmk⟩
  have htema : r.tema = toString tn.1 := (mem_pool hr).2
  rw [hmk]
  simp [mkQuestion, htema, hdec]

lemma block_length {df : List (Nat × Row)} {picks : Nat → List Nat}
    {tn : Nat × Nat} (hlen : (picks tn.1).length = tn.2)
    (hb : ∀ i ∈ picks tn.1, i < (pool df tn.1).length) :
    (block df picks tn).length = tn.2 := by
  rw [block, List.length_map, select_length hb, hlen]

lemma flatSel_mem {df : List (Nat × Row)} {picks : Nat → List Nat} :
    ∀ {todo : List (Nat × Nat)} {q : Nat × Question},
      q ∈ flatSel df picks todo → ∃ tn ∈ todo, q ∈ block df picks tn
  | [], _, h => absurd h (List.not_mem_nil _)
  | tn :: rest, q, h => by
    rcases List.mem_append.mp h with hb | hr
    · exact ⟨tn, by simp, hb⟩
    · rcases flatSel_mem hr with ⟨tn', htn', hb'⟩
      exact ⟨tn', by simp [htn'], hb'⟩

lemma flatSel_length {df : List (Nat × Row)} {picks : Nat → List Nat} :
    ∀ todo : List (Nat × Nat),
      (∀ tn ∈ todo, (picks tn.1).length = tn.2 ∧
        ∀ i ∈ picks tn.1, i < (pool df tn.1).length) →
      (flatSel df picks todo).length = (todo.map (fun tn => tn.2)).sum
  | [], _ => rfl
  | tn :: rest, h => by
    have hhead := h tn (by simp)
    have := flatSel_length rest (fun tn' htn' => h tn' (by simp [htn']))
    simp [flatSel, block_length hhead.1 hhead.2, this]

lemma flatSel_countP (df : List (Nat × Row)) (picks : Nat → List Nat)
    (t n : Nat) :
    ∀ todo : List (Nat × Nat),
      (∀ tn ∈ todo, decodeTopic (toString tn.1) = tn.1) →
      (∀ tn ∈ todo, (picks tn.1).length = tn.2 ∧
        ∀ i ∈ picks tn.1, i < (pool df tn.1).length) →
      (todo.map Prod.fst).Nodup →
      (t, n) ∈ todo →
      (flatSel df picks todo).countP (fun q => q.2.tema == t) = n
  | [], _, _, _, hmem => absurd hmem (List.not_mem_nil _)
  | (t', n') :: rest, hdec, hval, hnd, hmem => by
    rw [List.map_cons] at hnd
    have h1 : t' ∉ rest.map Prod.fst := (List.nodup_cons.mp hnd).1
    have h2 : (rest.map Prod.fst).Nodup := (List.nodup_cons.mp hnd).2
    rw [flatSel, List.countP_append]
    rcases List.mem_cons.mp hmem with heq | hmemr
    · injection heq with ht hn
      subst ht; subst hn
      have hblock : (block df picks (t, n)).countP (fun q => q.2.tema == t)
          = (block df picks (t, n)).length := by
        apply List.countP_eq_length.mpr
        intro q hq
        simpa using block_tema (hdec (t, n) (by simp)) q hq
      have hrest : (flatSel df picks rest).countP (fun q => q.2.tema == t) = 0 := by
        apply List.countP_eq_zero.mpr
        intro q hq
        rcases flatSel_mem hq with ⟨tn', htn', hb'⟩
        have : q.2.tema = tn'.1 := block_tema (hdec tn' (by simp [htn'])) q hb'
        have hne : tn'.1 ≠ t := by
          intro hcontra
          exact h1 (hcontra ▸ List.mem_map.mpr ⟨tn', htn', rfl⟩)
        simp [this, hne]
      rw [hblock, hrest,
        block_length (hval (t, n) (by simp)).1 (hval (t, n) (by simp)).2]
      simp
    · have hne : t' ≠ t := by
        intro hcontra
        apply h1
        rw [hcontra]
        exact List.mem_map.mpr ⟨(t, n), hmemr, rfl⟩
      have hblock : (block df picks (t', n')).countP (fun q => q.2.tema == t) = 0 := by
        apply List.countP_eq_zero.mpr
        intro q hq
        have : q.2.tema = t' := block_tema (hdec (t', n') (by simp)) q hq
        simp [this, hne]
      rw [hblock,
        flatSel_countP df picks t n rest (fun tn' htn' => hdec tn' (by simp [htn']))
          (fun tn' htn' => hval tn' (by simp [htn'])) h2 hmemr]
      simp

lemma flatSel_fst_nodup {df : List (Nat × Row)} {picks : Nat → List Nat}
    (hdf : (df.map Prod.fst).Nodup) :
    ∀ todo : List (Nat × Nat),
      (∀ tn ∈ todo, (picks tn.1).Nodup ∧
        ∀ i ∈ picks tn.1, i < (pool df tn.1).length) →
      ((todo.map (fun tn => toString tn.1)).Nodup) →
      ((flatSel df picks todo).map Prod.fst).Nodup
  | [], _, _ => List.nodup_nil
  | tn :: rest, hval, hstr => by
    rw [List.map_cons] at hstr
    have hs1 : toString tn.1 ∉ rest.map (fun tn' => toString tn'.1) :=
      (List.nodup_cons.mp hstr).1
    have hs2 : (rest.map (fun tn' => toString tn'.1)).Nodup :=
      (List.nodup_cons.mp hstr).2
    rw [flatSel, List.map_append, List.nodup_append]
    refine ⟨block_fst_nodup hdf (hval tn (by simp)).1 (hval tn (by simp)).2,
      flatSel_fst_nodup hdf rest (fun tn' htn' => hval tn' (by simp [htn'])) hs2,
      ?_⟩
    intro i hib hir
    rcases List.mem_map.mp hib with ⟨q, hq, rfl⟩
    rcases block_src hq with ⟨r, hr, _⟩
    rcases List.mem_map.mp hir with ⟨q', hq', hq'fst⟩
    rcases flatSel_mem hq' with ⟨tn', htn', hb'⟩
    rcases block_src hb' with ⟨r', hr', _⟩
    rw [hq'fst] at hr'
    have hrr : r = r' :=
      keys_nodup_unique hdf (mem_pool hr).1 (mem_pool hr').1
    have : toString tn.1 = toString tn'.1 := by
      rw [← (mem_pool hr).2, hrr, (mem_pool hr').2]
    exact hs1 (this ▸ List.mem_map.mpr ⟨tn', htn', rfl⟩)

/-! ### Grading arithmetic -/

lemma tallyFrom_sum (answers : List (Nat × String)) :
    ∀ (i : Nat) (exam : List (Nat × Question)),
      (tallyFrom answers i exam).1 + (tallyFrom answers i exam).2 = exam.length
  | _, [] => rfl
  | i, q :: rest => by
    have := tallyFrom_sum answers (i + 1) rest
    by_cases h : dictGet answers i == some q.2.correcta
    · simp [tallyFrom, h]
      omega
    · simp [tallyFrom, h]
      omega

/-! ### The claims -/

/-- C1: on any bank whose topic pools all reach their
`TOPIC_DISTRIBUTION` quota, `generate_exam` succeeds with exactly 20
entries, the per-topic counts match the quota table, and no two entries
come from the same source row (their pandas row indices are distinct).
The sampling data is quantified over everything `pool.sample`/
`random.shuffle` can produce: duplicate-free in-range sample positions of
the right size per topic, and a permutation of the 20 positions. -/
theorem generate_exam_spec (df : List (Nat × Row)) (picks : Nat → List Nat)
    (perm : List Nat)
    (hdf : (df.map Prod.fst).Nodup)
    (hsuff : ∀ tn ∈ TOPIC_DISTRIBUTION, tn.2 ≤ (pool df tn.1).length)
    (hpicks : ∀ tn ∈ TOPIC_DISTRIBUTION, (picks tn.1).length = tn.2 ∧
      (picks tn.1).Nodup ∧ ∀ i ∈ picks tn.1, i < (pool df tn.1).length)
    (hperm : perm.Perm (List.range EXAM_SIZE)) :
    ∃ exam, generate_exam df picks perm = .ok exam ∧
      exam.length = EXAM_SIZE ∧
      (∀ tn ∈ TOPIC_DISTRIBUTION,
        exam.countP (fun q => q.2.tema == tn.1) = tn.2) ∧
      (exam.map Prod.fst).Nodup := by
  have hok : genLoop df picks TOPIC_DISTRIBUTION [] =
      .ok (flatSel df picks TOPIC_DISTRIBUTION) := by
    simpa using genLoop_ok df picks TOPIC_DISTRIBUTION []
      (fun tn htn => Nat.not_lt.mpr (hsuff tn htn))
  have hE0len : (flatSel df picks TOPIC_DISTRIBUTION).length = EXAM_SIZE := by
    rw [flatSel_length TOPIC_DISTRIBUTION
      (fun tn htn => ⟨(hpicks tn htn).1, (hpicks tn htn).2.2⟩)]
    rfl
  have hp : (select (flatSel df picks TOPIC_DISTRIBUTION) perm).Perm
      (flatSel df picks TOPIC_DISTRIBUTION) :=
    select_perm (by rw [hE0len]; exact hperm)
  refine ⟨select (flatSel df picks TOPIC_DISTRIBUTION) perm, ?_, ?_, ?_, ?_⟩
  · simp [generate_exam, hok, Except.map]
  · rw [hp.length_eq, hE0len]
  · intro tn htn
    obtain ⟨t, n⟩ := tn
    rw [List.Perm.countP_eq _ hp]
    exact flatSel_countP df picks t n TOPIC_DISTRIBUTION
      (by decide)
      (fun tn' htn' => ⟨(hpicks tn' htn').1, (hpicks tn' htn').2.2⟩)
      (by decide) htn
  · exact ((List.Perm.map Prod.fst hp).nodup_iff).mpr
      (flatSel_fst_nodup hdf TOPIC_DISTRIBUTION
        (fun tn htn => ⟨(hpicks tn htn).2.1, (hpicks tn htn).2.2⟩)
        (by decide))

theorem generate_exam_spec_witness :
    ∃ exam, generate_exam bankW picksW (List.range EXAM_SIZE) = .ok exam ∧
      exam.length = EXAM_SIZE ∧
      (∀ tn ∈ TOPIC_DISTRIBUTION,
        exam.countP (fun q => q.2.tema == tn.1) = tn.2) ∧
      (exam.map Prod.fst).Nodup :=
  generate_exam_spec bankW picksW (List.range EXAM_SIZE)
    (by decide) (by decide) (by decide) (List.Perm.refl _)

/-- C2: the grading computation splits the exam between the two
counters (`correct + wrong = len(exam)`) and the verdict is
`correct >= PASS_SCORE` (16), for every exam and answers map. -/
theorem grade_counts_and_pass (exam : List (Nat × Question))
    (answers : List (Nat × String)) :
    (grade exam answers).correct + (grade exam answers).wrong = exam.length ∧
    ((grade exam answers).passed = true ↔ PASS_SCORE ≤ (grade exam answers).correct) := by
  constructor
  · exact tallyFrom_sum answers 0 exam
  · simp [grade]

/-- C4: `generate_exam` fails exactly when some topic's pool is below
its quota, and the error message is the line-51 text naming that topic, the
required count and the available count. -/
theorem generate_exam_error_spec (df : List (Nat × Row))
    (picks : Nat → List Nat) (perm : List Nat) :
    (∀ msg, generate_exam df picks perm = .error msg →
      ∃ tn ∈ TOPIC_DISTRIBUTION, (pool df tn.1).length < tn.2 ∧
        msg = shortfallMsg tn.1 tn.2 ((pool df tn.1).length)) ∧
    ((∃ tn ∈ TOPIC_DISTRIBUTION, (pool df tn.1).length < tn.2) →
      ∃ msg, generate_exam df picks perm = .error msg) := by
  constructor
  · intro msg h
    cases hg : genLoop df picks TOPIC_DISTRIBUTION [] with
    | ok e => simp [generate_exam, hg, Except.map] at h
    | error m =>
      have hm : m = msg := by
        simpa [generate_exam, hg, Except.map] using h
      exact genLoop_error df picks _ _ _ (hm ▸ hg)
  · rintro ⟨tn, htn, hlt⟩
    rcases genLoop_error_of_short df picks TOPIC_DISTRIBUTION [] ⟨tn, htn, hlt⟩
      with ⟨msg, hmsg⟩
    exact ⟨msg, by simp [generate_exam, hmsg, Except.map]⟩

/-- C5: when a Generate attempt fails on a topic shortfall the handler
only displays the error, leaving the whole session (exam, cursor, answers)
exactly as it was. -/
theorem generate_failure_preserves_state (df : List (Nat × Row))
    (picks : Nat → List Nat) (perm : List Nat) (s : SessionState)
    (hshort : ∃ tn ∈ TOPIC_DISTRIBUTION, (pool df tn.1).length < tn.2) :
    generateButton df picks perm s = s := by
  rcases genLoop_error_of_short df picks TOPIC_DISTRIBUTION [] hshort
    with ⟨msg, hmsg⟩
  simp [generateButton, generate_exam, hmsg, Except.map]

theorem generate_failure_preserves_state_witness :
    generateButton [] picksW [] sW = sW :=
  generate_failure_preserves_state [] picksW [] sW
    ⟨(1, 3), by decide, by decide⟩

/-- C6: the Finish block only reads the session, so it returns the
state unchanged, and two consecutive Finish computations (no Generate,
Reset or answer change in between) produce the same `GradingResult`
(counters, verdict and missed review alike). -/
theorem finish_pure_idempotent (s : SessionState)
    (exam : List (Nat × Question)) (hx : s.exam = some exam) :
    finishButton s = (s, some (grade exam s.answers)) ∧
    (finishButton (finishButton s).1).2 = (finishButton s).2 := by
  simp [finishButton, hx]

theorem finish_pure_idempotent_witness :
    finishButton sW = (sW, some (grade examW sW.answers)) ∧
    (finishButton (finishButton sW).1).2 = (finishButton sW).2 :=
  finish_pure_idempotent sW examW rfl

/-- C7: on a 20-question exam, Previous at cursor 0 and Next at cursor
19 are disabled and change nothing; neither button ever touches the exam or
the answers, and the cursor stays inside `0 ≤ idx < len(exam)`. -/
theorem navigation_boundaries (s : SessionState)
    (exam : List (Nat × Question)) (_hx : s.exam = some exam)
    (hlen : exam.length = EXAM_SIZE) :
    (s.idx = 0 → prevButton s = s) ∧
    (s.idx = EXAM_SIZE - 1 → nextButton s = s) ∧
    (prevButton s).exam = s.exam ∧ (prevButton s).answers = s.answers ∧
    (nextButton s).exam = s.exam ∧ (nextButton s).answers = s.answers ∧
    (s.idx < exam.length →
      (prevButton s).idx < exam.length ∧ (nextButton s).idx < exam.length) := by
  refine ⟨fun h => by simp [prevButton, h], fun h => by simp [nextButton, h],
    ?_, ?_, ?_, ?_, fun h => ⟨?_, ?_⟩⟩
  · unfold prevButton; split <;> rfl
  · unfold prevButton; split <;> rfl
  · unfold nextButton; split <;> rfl
  · unfold nextButton; split <;> rfl
  · unfold prevButton
    split
    · exact h
    · exact Nat.lt_of_le_of_lt (Nat.sub_le s.idx 1) h
  · unfold nextButton
    split
    · exact h
    · next hne =>
      have h19 : s.idx ≠ 19 := by simpa [EXAM_SIZE] using hne
      have hE : exam.length = 20 := hlen
      show s.idx + 1 < exam.length
      omega

theorem navigation_boundaries_witness :
    (sW.idx = 0 → prevButton sW = sW) ∧
    (sW.idx = EXAM_SIZE - 1 → nextButton sW = sW) ∧
    (prevButton sW).exam = sW.exam ∧ (prevButton sW).answers = sW.answers ∧
    (nextButton sW).exam = sW.exam ∧ (nextButton sW).answers = sW.answers ∧
    (sW.idx < examW.length →
      (prevButton sW).idx < examW.length ∧ (nextButton sW).idx < examW.length) :=
  navigation_boundaries sW examW rfl rfl

/-- C3 (amended): rendering the current question when it has no
recorded answer pre-selects option A (`default_index = 0`) and line 127
immediately records `answers[cursor] = "A"` with no user interaction; exam
and cursor are untouched.  (A question never rendered gets no entry and is
graded as unanswered, not as an A-guess — see the counterexample.) -/
theorem render_default_records_A (s : SessionState)
    (exam : List (Nat × Question)) (hx : s.exam = some exam)
    (hnone : dictGet s.answers s.idx = none) :
    renderStep s = { s with answers := dictSet s.answers s.idx "A" } := by
  simp [renderStep, hx, hnone]

theorem render_default_records_A_witness :
    renderStep sW = { sW with answers := dictSet sW.answers sW.idx "A" } :=
  render_default_records_A sW examW rfl rfl

/-- C3 counterexample: in a fresh session on the 20-question exam
`examW` (whose correct keys are all `"A"`), after rendering question 0 only,
question 1 was never visited: it has no recorded answer, and the Finish
grading differs from what grading "as if answered A" would give — so a
never-visited question is graded as unanswered, not as an A-guess. -/
theorem render_default_counterexample :
    dictGet (renderStep sW).answers 1 = none ∧
    (finishButton (renderStep sW)).2 ≠
      some (grade examW (dictSet (renderStep sW).answers 1 "A")) := by
  decide

/-! ### Loader case analysis -/

lemma load_ok_inv {t : RawTable} {bank : List Row}
    (h : load_questions t = .ok bank) :
    missingOf t = [] ∧ bank = dfOf t ∧
    (dfOf t).all (fun r => validTopics.contains r.tema) = true ∧
    (dfOf t).all (fun r => validKeys.contains r.correcta) = true ∧
    (dfOf t).any (fun r =>
      strip r.enunciado == "" || strip r.A == "" || strip r.B == "" ||
        strip r.C == "") = false := by
  unfold load_questions at h
  by_cases hm : missingOf t = []
  · simp only [hm, ne_eq, not_true_eq_false, if_false] at h
    by_cases h1 : (dfOf t).all (fun r => validTopics.contains r.tema) = true
    · rw [if_neg (not_not_intro h1)] at h
      by_cases h2 : (dfOf t).all (fun r => validKeys.contains r.correcta) = true
      · rw [if_neg (not_not_intro h2)] at h
        by_cases h3 : (dfOf t).any (fun r =>
            strip r.enunciado == "" || strip r.A == "" || strip r.B == "" ||
              strip r.C == "") = true
        · rw [if_pos h3] at h
          exact Except.noConfusion h
        · rw [if_neg h3] at h
          exact ⟨hm, (Except.ok.inj h).symm, h1, h2, by simpa using h3⟩
      · rw [if_pos h2] at h
        exact Except.noConfusion h
    · rw [if_pos h1] at h
      exact Except.noConfusion h
  · rw [if_pos hm] at h
    exact Except.noConfusion h

lemma load_error_missing {t : RawTable} (hm : missingOf t ≠ []) :
    load_questions t = .error (missingColsMsg (missingOf t)) := by
  simp [load_questions, hm]

lemma load_error_topic {t : RawTable} (hm : missingOf t = [])
    (h1 : ¬ (dfOf t).all (fun r => validTopics.contains r.tema) = true) :
    load_questions t = .error invalidTopicMsg := by
  unfold load_questions
  simp only [hm, ne_eq, not_true_eq_false, if_false]
  rw [if_pos h1]

lemma load_error_key {t : RawTable} (hm : missingOf t = [])
    (h1 : (dfOf t).all (fun r => validTopics.contains r.tema) = true)
    (h2 : ¬ (dfOf t).all (fun r => validKeys.contains r.correcta) = true) :
    load_questions t = .error invalidKeyMsg := by
  unfold load_questions
  simp only [hm, ne_eq, not_true_eq_false, if_false]
  rw [if_neg (not_not_intro h1), if_pos h2]

lemma load_error_empty {t : RawTable} (hm : missingOf t = [])
    (h1 : (dfOf t).all (fun r => validTopics.contains r.tema) = true)
    (h2 : (dfOf t).all (fun r => validKeys.contains r.correcta) = true)
    (h3 : (dfOf t).any (fun r =>
      strip r.enunciado == "" || strip r.A == "" || strip r.B == "" ||
        strip r.C == "") = true) :
    load_questions t = .error emptyFieldsMsg := by
  unfold load_questions
  simp only [hm, ne_eq, not_true_eq_false, if_false]
  rw [if_neg (not_not_intro h1), if_neg (not_not_intro h2), if_pos h3]

lemma load_error_cases {t : RawTable} {msg : String}
    (hm : missingOf t = []) (h : load_questions t = .error msg) :
    msg = invalidTopicMsg ∨ msg = invalidKeyMsg ∨ msg = emptyFieldsMsg := by
  unfold load_questions at h
  simp only [hm, ne_eq, not_true_eq_false, if_false] at h
  by_cases h1 : (dfOf t).all (fun r => validTopics.contains r.tema) = true
  · rw [if_neg (not_not_intro h1)] at h
    by_cases h2 : (dfOf t).all (fun r => validKeys.contains r.correcta) = true
    · rw [if_neg (not_not_intro h2)] at h
      by_cases h3 : (dfOf t).any (fun r =>
          strip r.enunciado == "" || strip r.A == "" || strip r.B == "" ||
            strip r.C == "") = true
      · rw [if_pos h3] at h
        exact Or.inr (Or.inr (Except.error.inj h).symm)
      · rw [if_neg h3] at h
        exact Except.noConfusion h
    · rw [if_pos h2] at h
      exact Or.inr (Or.inl (Except.error.inj h).symm)
  · rw [if_pos h1] at h
    exact Or.inl (Except.error.inj h).symm

/-! ### Loader claims -/

/-- C8 (amended): the load is a pure function of the parsed table, and
a returned bank is exactly the `fillna`-ed rows through the line-25/26
transforms — `tema` trimmed and `correcta` trimmed-and-uppercased (both then
validated against their value sets), while `enunciado`/`A`/`B`/`C` are
returned verbatim, untrimmed. -/
theorem load_field_transforms (t : RawTable) (bank : List Row)
    (h : load_questions t = .ok bank) :
    bank = dfOf t ∧
    ∀ r ∈ bank, r.tema ∈ validTopics ∧ r.correcta ∈ validKeys := by
  obtain ⟨hm, hbank, h1, h2, h3⟩ := load_ok_inv h
  subst hbank
  exact ⟨rfl, fun r hr =>
    ⟨by simpa using List.all_eq_true.mp h1 r hr,
     by simpa using List.all_eq_true.mp h2 r hr⟩⟩

theorem load_field_transforms_witness :
    ([rowX] : List Row) = dfOf tableW ∧
    ∀ r ∈ ([rowX] : List Row), r.tema ∈ validTopics ∧ r.correcta ∈ validKeys :=
  load_field_transforms tableW [rowX] rfl

/-- C8 counterexample: loading `tableW` succeeds and returns the
statement `" x "` with its whitespace intact — the claim that *every*
string field is trimmed fails (only `tema` and `correcta` are). -/
theorem load_trim_counterexample :
    load_questions tableW = .ok [rowX] ∧ rowX.enunciado ≠ strip rowX.enunciado :=
  ⟨rfl, by decide⟩

/-- C9 (amended): every row is validated and any violation fails the
whole load — a returned bank is the complete row list with every row valid;
missing columns are listed explicitly in the message; invalid-topic,
invalid-correctKey and empty-field violations each yield their fixed
diagnostic message identifying the violation kind (the messages name the
valid value sets, not the offending values). -/
theorem load_validation_spec (t : RawTable) :
    (missingOf t ≠ [] → load_questions t = .error (missingColsMsg (missingOf t))) ∧
    (∀ bank, load_questions t = .ok bank →
      bank.length = t.rows.length ∧
      ∀ r ∈ bank, r.tema ∈ validTopics ∧ r.correcta ∈ validKeys ∧
        strip r.enunciado ≠ "" ∧ strip r.A ≠ "" ∧ strip r.B ≠ "" ∧ strip r.C ≠ "") ∧
    (missingOf t = [] → (∃ r ∈ dfOf t, r.tema ∉ validTopics) →
      load_questions t = .error invalidTopicMsg) ∧
    (missingOf t = [] → (∀ r ∈ dfOf t, r.tema ∈ validTopics) →
      (∃ r ∈ dfOf t, r.correcta ∉ validKeys) →
      load_questions t = .error invalidKeyMsg) ∧
    (missingOf t = [] → (∀ r ∈ dfOf t, r.tema ∈ validTopics) →
      (∀ r ∈ dfOf t, r.correcta ∈ validKeys) →
      (∃ r ∈ dfOf t, strip r.enunciado = "" ∨ strip r.A = "" ∨ strip r.B = "" ∨
        strip r.C = "") →
      load_questions t = .error emptyFieldsMsg) := by
  refine ⟨load_error_missing, ?_, ?_, ?_, ?_⟩
  · intro bank h
    obtain ⟨hm, hbank, h1, h2, h3⟩ := load_ok_inv h
    subst hbank
    refine ⟨by simp [dfOf], fun r hr => ?_⟩
    have he := List.any_eq_false.mp h3 r hr
    simp only [Bool.or_eq_true, beq_iff_eq, not_or] at he
    exact ⟨by simpa using List.all_eq_true.mp h1 r hr,
      by simpa using List.all_eq_true.mp h2 r hr,
      he.1.1.1, he.1.1.2, he.1.2, he.2⟩
  · rintro hm ⟨r, hr, hrt⟩
    exact load_error_topic hm
      (fun hall => hrt (by simpa using List.all_eq_true.mp hall r hr))
  · rintro hm htop ⟨r, hr, hrk⟩
    exact load_error_key hm
      (List.all_eq_true.mpr (fun x hx => by simpa using htop x hx))
      (fun hall => hrk (by simpa using List.all_eq_true.mp hall r hr))
  · rintro hm htop hkey ⟨r, hr, hre⟩
    exact load_error_empty hm
      (List.all_eq_true.mpr (fun x hx => by simpa using htop x hx))
      (List.all_eq_true.mpr (fun x hx => by simpa using hkey x hx))
      (List.any_eq_true.mpr ⟨r, hr, by
        simpa only [Bool.or_eq_true, beq_iff_eq, or_assoc] using hre⟩)

/-- C9 counterexample: a row with topic value `"9"` fails the load, but
the diagnostic is the fixed line-30 message: the offending value `"9"` is
not named anywhere in it (the message names the valid set `1..7`). -/
theorem load_invalid_value_not_named :
    load_questions table9 = .error invalidTopicMsg ∧
    ¬ List.IsInfix "9".data invalidTopicMsg.data :=
  ⟨rfl, by decide⟩

/-- C10: `fillna("")` turns every NaN cell into the empty string, so on
any table carrying all required columns, a row with a missing value in
`tema`, `enunciado`, `A`, `B`, `C` or `correcta` makes the load fail
through the ordinary validation errors (invalid topic, invalid correct key,
or empty fields) — and those are the only errors the loader can raise
there: no NaN propagates into a returned bank and no other failure kind
occurs. -/
theorem load_missing_cell_rejected (t : RawTable)
    (hm : missingOf t = [])
    (hcell : ∃ row ∈ t.rows, ∃ c ∈ requiredCols, ∃ i,
      t.cols.findIdx? (fun x => x == c) = some i ∧ row.get? i = some none) :
    (load_questions t = .error invalidTopicMsg ∨
     load_questions t = .error invalidKeyMsg ∨
     load_questions t = .error emptyFieldsMsg) ∧
    (∀ msg, load_questions t = .error msg →
      msg = invalidTopicMsg ∨ msg = invalidKeyMsg ∨ msg = emptyFieldsMsg) := by
  refine ⟨?_, fun msg h => load_error_cases hm h⟩
  obtain ⟨row, hrow, c, hc, i, hfind, hnone⟩ := hcell
  have hmap : (fillnaRow row).get? i = some "" := by
    rw [fillnaRow, List.get?_map, hnone]
    rfl
  have hcellval : getCell t.cols (fillnaRow row) c = "" := by
    simp only [getCell, hfind]
    rw [List.getD_eq_get?, hmap]
    rfl
  have hmem : mkRow t.cols (fillnaRow row) ∈ dfOf t :=
    List.mem_map_of_mem _ (List.mem_map_of_mem _ hrow)
  have finishEmpty : (strip (mkRow t.cols (fillnaRow row)).enunciado = "" ∨
      strip (mkRow t.cols (fillnaRow row)).A = "" ∨
      strip (mkRow t.cols (fillnaRow row)).B = "" ∨
      strip (mkRow t.cols (fillnaRow row)).C = "") →
      (load_questions t = .error invalidTopicMsg ∨
       load_questions t = .error invalidKeyMsg ∨
       load_questions t = .error emptyFieldsMsg) := by
    intro hfield
    by_cases h1 : (dfOf t).all (fun r => validTopics.contains r.tema) = true
    · by_cases h2 : (dfOf t).all (fun r => validKeys.contains r.correcta) = true
      · exact Or.inr (Or.inr (load_error_empty hm h1 h2
          (List.any_eq_true.mpr ⟨_, hmem, by
            simpa only [Bool.or_eq_true, beq_iff_eq, or_assoc] using hfield⟩)))
      · exact Or.inr (Or.inl (load_error_key hm h1 h2))
    · exact Or.inl (load_error_topic hm h1)
  fin_cases hc
  · -- c = "tema"
    have htema : (mkRow t.cols (fillnaRow row)).tema = "" := by
      show strip (getCell t.cols (fillnaRow row) "tema") = ""
      rw [hcellval]; decide
    left
    apply load_error_topic hm
    intro hall
    have hv := List.all_eq_true.mp hall _ hmem
    rw [htema] at hv
    exact absurd hv (by decide)
  · -- c = "enunciado"
    have he : (mkRow t.cols (fillnaRow row)).enunciado = "" := hcellval
    exact finishEmpty (Or.inl (by rw [he]; decide))
  · -- c = "A"
    have ha : (mkRow t.cols (fillnaRow row)).A = "" := hcellval
    exact finishEmpty (Or.inr (Or.inl (by rw [ha]; decide)))
  · -- c = "B"
    have hb : (mkRow t.cols (fillnaRow row)).B = "" := hcellval
    exact finishEmpty (Or.inr (Or.inr (Or.inl (by rw [hb]; decide))))
  · -- c = "C"
    have hcf : (mkRow t.cols (fillnaRow row)).C = "" := hcellval
    exact finishEmpty (Or.inr (Or.inr (Or.inr (by rw [hcf]; decide))))
  · -- c = "correcta"
    have hcor : (mkRow t.cols (fillnaRow row)).correcta = "" := by
      show upper (strip (getCell t.cols (fillnaRow row) "correcta")) = ""
      rw [hcellval]; decide
    by_cases h1 : (dfOf t).all (fun r => validTopics.contains r.tema) = true
    · right; left
      apply load_error_key hm h1
      intro hall
      have hv := List.all_eq_true.mp hall _ hmem
      rw [hcor] at hv
      exact absurd hv (by decide)
    · exact Or.inl (load_error_topic hm h1)

theorem load_missing_cell_rejected_witness :
    (load_questions table10 = .error invalidTopicMsg ∨
     load_questions table10 = .error invalidKeyMsg ∨
     load_questions table10 = .error emptyFieldsMsg) ∧
    (∀ msg, load_questions table10 = .error msg →
      msg = invalidTopicMsg ∨ msg = invalidKeyMsg ∨ msg = emptyFieldsMsg) :=
  load_missing_cell_rejected table10 (by decide)
    ⟨[some "1", none, some "a", some "b", some "c", some "A"], by decide,
     "enunciado", by decide, 1, by decide, rfl⟩

end TestPermiso
